import Mathlib

/-!
# Scene hierarchy panel: range selection, click handling and the search cache

A shallow embedding of `Source/Tools/Editor/Foundation/SceneViewTab/SceneHierarchy.cpp`.

* Engine objects (`Object*`, `Node*`, `WeakPtr<...>`) are represented by their identity, a `Nat`.
* `SceneHierarchy` member functions become functions on an explicit `SceneHierarchy` state;
  functions that also touch `page.selection_` return the new page as well.
* The class `SceneSelection` (`page.selection_`) is declared outside the embedded file.  The
  embedded functions are therefore written against an interface `SelectionOps`, with two
  instances below: the set-with-active-object model of the specification and a tracing wrapper
  that records every mutating call.
* The widget calls of the rendering loop are not embedded; a traversal is the list of objects on
  which `ProcessRangeSelection` is called, in order.  Objects stay alive during one traversal, so
  the weak references of `result_` are read back as the objects that were stored.
-/

namespace SceneHierarchyModel

/-! ## Selection interface -/

/-- The four `SceneSelection` member functions used by `SceneHierarchy.cpp`, over an arbitrary
representation `S` of the selection. -/
structure SelectionOps (S : Type) where
  GetActiveObject : S → Option Nat
  IsSelected : S → Nat → Bool
  SetSelected : S → Nat → Bool → S
  Clear : S → S

/-- Modelled from the spec: the class `SceneSelection` is not part of the embedded sources.  Spec
section 3: a selection is the "set of currently selected SelectableObjects plus one designated
active object". -/
structure SceneSelection where
  objects_ : List Nat
  activeObject_ : Option Nat
deriving DecidableEq, Repr

/-- Modelled from the spec: `SceneSelection::IsSelected`, membership in the selected set. -/
def SceneSelection.IsSelected (s : SceneSelection) (o : Nat) : Bool :=
  decide (o ∈ s.objects_)

/-- Modelled from the spec: `SceneSelection::GetActiveObject`. -/
def SceneSelection.GetActiveObject (s : SceneSelection) : Option Nat :=
  s.activeObject_

/-- Modelled from the spec: `SceneSelection::SetSelected`.  Selecting adds the object to the set
(and makes it the active object when there is none, as after `Clear`: "clear selection, select
only the clicked object, set it as active"); deselecting removes it from the set. -/
def SceneSelection.SetSelected (s : SceneSelection) (o : Nat) (selected : Bool) : SceneSelection :=
  if selected then
    { objects_ := if o ∈ s.objects_ then s.objects_ else s.objects_ ++ [o]
      activeObject_ := match s.activeObject_ with
        | some a => some a
        | none => some o }
  else
    { objects_ := s.objects_.filter (fun x => x != o)
      activeObject_ := s.activeObject_ }

/-- Modelled from the spec: `SceneSelection::Clear`, the empty selection without active object. -/
def SceneSelection.Clear (_s : SceneSelection) : SceneSelection :=
  { objects_ := [], activeObject_ := none }

/-- The specification's selection model as an implementation of the interface. -/
def specSelection : SelectionOps SceneSelection where
  GetActiveObject := SceneSelection.GetActiveObject
  IsSelected := SceneSelection.IsSelected
  SetSelected := SceneSelection.SetSelected
  Clear := SceneSelection.Clear

/-- One mutating call on `page.selection_`. -/
inductive SelectionCall where
  | setSelected (object : Nat) (selected : Bool)
  | clear
deriving DecidableEq, Repr

/-- Tracing wrapper: behaves like `ops` and appends every mutating call to a log. -/
def traceOps {S : Type} (ops : SelectionOps S) : SelectionOps (S × List SelectionCall) where
  GetActiveObject := fun s => ops.GetActiveObject s.1
  IsSelected := fun s o => ops.IsSelected s.1 o
  SetSelected := fun s o b => (ops.SetSelected s.1 o b, s.2 ++ [SelectionCall.setSelected o b])
  Clear := fun s => (ops.Clear s.1, s.2 ++ [SelectionCall.clear])

/-- The membership behaviour of a selection implementation: `SetSelected` sets the status of its
argument and of no other object, `Clear` deselects everything. -/
structure SelectionLaws {S : Type} (ops : SelectionOps S) : Prop where
  isSelected_setSelected : ∀ (s : S) (o x : Nat) (b : Bool),
    ops.IsSelected (ops.SetSelected s o b) x = if x = o then b else ops.IsSelected s x
  isSelected_clear : ∀ (s : S) (x : Nat), ops.IsSelected (ops.Clear s) x = false

/-! ## State of the panel -/

/-- Modelled from the spec: `RangeSelectionRequest` (declared in `SceneHierarchy.h`, not part of
the embedded sources) holds the anchor and the target of a shift-click. -/
structure RangeSelectionRequest where
  from_ : Nat
  to_ : Nat
deriving DecidableEq, Repr

/-- Modelled from the spec: `RangeSelectionRequest::IsBorder` (declared in `SceneHierarchy.h`):
"is it the anchor or the target of the current request". -/
def RangeSelectionRequest.IsBorder (r : RangeSelectionRequest) (object : Nat) : Bool :=
  object == r.from_ || object == r.to_

/-- The member `rangeSelection_`. -/
structure RangeSelection where
  pendingRequest_ : Option RangeSelectionRequest
  currentRequest_ : Option RangeSelectionRequest
  result_ : List Nat
  isActive_ : Bool
deriving DecidableEq, Repr

/-- The member `search_`. -/
structure Search where
  lastScene_ : Option Nat
  currentQuery_ : List Char
  lastQuery_ : List Char
  lastResults_ : List Nat
deriving DecidableEq, Repr

/-- The data members of `SceneHierarchy` used by the embedded functions. -/
structure SceneHierarchy where
  showComponents_ : Bool
  showTemporary_ : Bool
  isActiveObjectVisible_ : Bool
  wasActiveObjectVisible_ : Bool
  rangeSelection_ : RangeSelection
  search_ : Search
deriving DecidableEq, Repr

/-- The members of `SceneViewPage` used by the embedded functions. -/
structure SceneViewPage (S : Type) where
  scene_ : Nat
  selection_ : S

/-! ## Click handling and range selection -/

/-- Embedding of `SceneHierarchy::ProcessObjectSelected`. -/
def ProcessObjectSelected {S : Type} (ops : SelectionOps S) (h : SceneHierarchy)
    (page : SceneViewPage S) (object : Nat) (toggle range : Bool) :
    SceneHierarchy × SceneViewPage S :=
  let selection := page.selection_
  if toggle then
    (h, { page with
          selection_ := ops.SetSelected selection object (!ops.IsSelected selection object) })
  else
    match ops.GetActiveObject selection with
    | some activeObject =>
      if range && h.wasActiveObjectVisible_ && activeObject != object then
        ({ h with rangeSelection_ :=
            { h.rangeSelection_ with pendingRequest_ := some ⟨activeObject, object⟩ } }, page)
      else
        (h, { page with selection_ := ops.SetSelected (ops.Clear selection) object true })
    | none =>
      (h, { page with selection_ := ops.SetSelected (ops.Clear selection) object true })

/-- Embedding of `SceneHierarchy::UpdateActiveObjectVisibility`. -/
def UpdateActiveObjectVisibility {S : Type} (ops : SelectionOps S) (h : SceneHierarchy)
    (page : SceneViewPage S) (currentItem : Nat) : SceneHierarchy :=
  if ops.GetActiveObject page.selection_ = some currentItem then
    { h with isActiveObjectVisible_ := true }
  else h

/-- Embedding of `SceneHierarchy::BeginRangeSelection`. -/
def BeginRangeSelection (h : SceneHierarchy) : SceneHierarchy :=
  { h with
    wasActiveObjectVisible_ := h.isActiveObjectVisible_
    isActiveObjectVisible_ := false
    rangeSelection_ :=
      { result_ := []
        isActive_ := false
        currentRequest_ := h.rangeSelection_.pendingRequest_
        pendingRequest_ := none } }

/-- Embedding of `SceneHierarchy::ProcessRangeSelection`.  The parameter `open` of the source is
not read by the function body. -/
def ProcessRangeSelection (h : SceneHierarchy) (currentObject : Nat) (_open : Bool) :
    SceneHierarchy :=
  match h.rangeSelection_.currentRequest_ with
  | none => h
  | some request =>
    let isBorder := request.IsBorder currentObject
    if !h.rangeSelection_.isActive_ && isBorder then
      { h with rangeSelection_ :=
          { h.rangeSelection_ with
            isActive_ := true
            result_ := h.rangeSelection_.result_ ++ [currentObject] } }
    else if h.rangeSelection_.isActive_ && isBorder then
      { h with rangeSelection_ :=
          { h.rangeSelection_ with
            result_ := h.rangeSelection_.result_ ++ [currentObject]
            isActive_ := false
            currentRequest_ := none } }
    else if h.rangeSelection_.isActive_ then
      { h with rangeSelection_ :=
          { h.rangeSelection_ with result_ := h.rangeSelection_.result_ ++ [currentObject] } }
    else h

/-- Embedding of `SceneHierarchy::EndRangeSelection`. -/
def EndRangeSelection {S : Type} (ops : SelectionOps S) (h : SceneHierarchy)
    (page : SceneViewPage S) : SceneHierarchy × SceneViewPage S :=
  let h1 := { h with rangeSelection_ := { h.rangeSelection_ with currentRequest_ := none } }
  if !h1.rangeSelection_.isActive_ then
    (h1, h1.rangeSelection_.result_.foldl
      (fun p object => { p with selection_ := ops.SetSelected p.selection_ object true }) page)
  else
    (h1, page)

/-- The calls `ProcessRangeSelection(object, opened object)` made by one traversal that visits
the objects `objects` in that order. -/
def traverse (h : SceneHierarchy) (objects : List Nat) (opened : Nat → Bool) : SceneHierarchy :=
  objects.foldl (fun st object => ProcessRangeSelection st object (opened object)) h

/-- One range-selection pass as driven by `RenderContent`: `BeginRangeSelection`, the traversal,
`EndRangeSelection`. -/
def rangeSelectionPass {S : Type} (ops : SelectionOps S) (h : SceneHierarchy)
    (page : SceneViewPage S) (objects : List Nat) (opened : Nat → Bool) :
    SceneHierarchy × SceneViewPage S :=
  EndRangeSelection ops (traverse (BeginRangeSelection h) objects opened) page

/-! ## Search cache -/

/-- Modelled from the spec: a live scene node as `UpdateSearchResults` observes it, namely its
identity, the value of `Node::GetName` and the scene whose `GetChildren(children, true)`
enumerates it.  The class `Node` is not part of the embedded sources. -/
structure Node where
  id : Nat
  name : List Char
  scene : Nat
deriving DecidableEq, Repr

/-- Modelled from the spec: the live nodes of the engine, in enumeration order.  Object identities
are pairwise distinct. -/
structure World where
  nodes : List Node
  nodup : (nodes.map Node.id).Nodup

/-- Dereferencing a `WeakPtr<Node>`: `none` when the reference is expired. -/
def World.lookup (w : World) (n : Nat) : Option Node :=
  w.nodes.find? (fun nd => nd.id == n)

/-- Modelled from the spec: `Node::GetChildren(children, true)` on a scene, "enumerate every
descendant of the root". -/
def World.GetChildren (w : World) (scene : Nat) : List Node :=
  w.nodes.filter (fun nd => nd.scene == scene)

/-- Modelled from the spec: `ea::string::contains(str, caseSensitive)` (the string class is not
part of the embedded sources), a "substring test" that is case-insensitive when `caseSensitive`
is false.  Both call sites pass a non-empty `str`. -/
def contains (s str : List Char) (caseSensitive : Bool) : Bool :=
  if caseSensitive then decide (str <:+: s)
  else decide (str.map Char.toLower <:+: s.map Char.toLower)

/-- The local constant `resultsExpired` of `SceneHierarchy::UpdateSearchResults`, read after
`lastScene_` was updated and before `lastQuery_` is. -/
def resultsExpired (search : Search) (sceneChanged : Bool) : Bool :=
  sceneChanged
    || search.lastResults_.isEmpty
    || !contains search.lastQuery_ search.currentQuery_ true

/-- Embedding of `SceneHierarchy::UpdateSearchResults`. -/
def UpdateSearchResults {S : Type} (w : World) (h : SceneHierarchy) (page : SceneViewPage S) :
    SceneHierarchy :=
  let sceneChanged := h.search_.lastScene_ != some page.scene_
  let search1 := { h.search_ with lastScene_ := some page.scene_ }
  if search1.currentQuery_.isEmpty then
    { h with search_ := { search1 with lastResults_ := [], lastQuery_ := [] } }
  else
    let resultsExpired := resultsExpired search1 sceneChanged
    let search2 := { search1 with lastQuery_ := search1.currentQuery_ }
    if resultsExpired then
      let children := w.GetChildren page.scene_
      { h with search_ :=
          { search2 with
            lastResults_ :=
              (children.filter (fun child => contains child.name search2.currentQuery_ false)).map
                Node.id } }
    else
      { h with search_ :=
          { search2 with
            lastResults_ := search2.lastResults_.filter (fun node =>
              !(match w.lookup node with
                | none => true
                | some nd => !contains nd.name search2.currentQuery_ false)) } }

/-- The specification's full rescan: "enumerate every descendant of the root and keep those
whose display name contains the query (case-insensitive substring test)". -/
def fullRescan (w : World) (scene : Nat) (query : List Char) : List Nat :=
  ((w.GetChildren scene).filter (fun nd => contains nd.name query false)).map Node.id

/-- Typing `query` into the search box and running the update for it, as `RenderToolbar` does
when the input text changed. -/
def typeQuery {S : Type} (w : World) (page : SceneViewPage S) (h : SceneHierarchy)
    (query : List Char) : SceneHierarchy :=
  UpdateSearchResults w { h with search_ := { h.search_ with currentQuery_ := query } } page

/-- The panel state `h` with its member `rangeSelection_` replaced. -/
def withRange (h : SceneHierarchy) (rs : RangeSelection) : SceneHierarchy :=
  { h with rangeSelection_ := rs }

/-- The state of a freshly constructed `SceneHierarchy`. -/
def initial : SceneHierarchy where
  showComponents_ := false
  showTemporary_ := false
  isActiveObjectVisible_ := false
  wasActiveObjectVisible_ := false
  rangeSelection_ := { pendingRequest_ := none, currentRequest_ := none, result_ := [], isActive_ := false }
  search_ := { lastScene_ := none, currentQuery_ := [], lastQuery_ := [], lastResults_ := [] }

/-- A scene (identity 0) with two nodes named "abcd" and "abcx". -/
def demoWorld : World where
  nodes := [⟨1, ['a', 'b', 'c', 'd'], 0⟩, ⟨2, ['a', 'b', 'c', 'x'], 0⟩]
  nodup := by decide

/-- The page showing the scene of `demoWorld`, with nothing selected. -/
def demoPage : SceneViewPage SceneSelection where
  scene_ := 0
  selection_ := { objects_ := [], activeObject_ := none }

/-- A page whose selection is `{1, 9}` with active object `1`. -/
def clickPage : SceneViewPage SceneSelection where
  scene_ := 0
  selection_ := { objects_ := [1, 9], activeObject_ := some 1 }

/-- A page whose selection is `{1, 2, 3}` with active object `1`, as left by a plain click on `1`
followed by a resolved shift-click on `3`. -/
def rangePage : SceneViewPage SceneSelection where
  scene_ := 0
  selection_ := { objects_ := [1, 2, 3], activeObject_ := some 1 }

/-- A panel state in which the active object was visited by the previous traversal. -/
def visibleState : SceneHierarchy :=
  { initial with wasActiveObjectVisible_ := true }

/-! ## Properties of the selection model -/

theorem specSelection_laws : SelectionLaws specSelection := by
  constructor
  · intro s o x b
    cases b
    · by_cases hx : x = o
      · simp [specSelection, SceneSelection.IsSelected, SceneSelection.SetSelected, hx]
      · simp [specSelection, SceneSelection.IsSelected, SceneSelection.SetSelected, hx]
    · by_cases hx : x = o
      · subst hx
        by_cases hm : x ∈ s.objects_ <;>
          simp [specSelection, SceneSelection.IsSelected, SceneSelection.SetSelected, hm]
      · by_cases hm : o ∈ s.objects_ <;>
          simp [specSelection, SceneSelection.IsSelected, SceneSelection.SetSelected, hm, hx]
  · intro s x
    simp [specSelection, SceneSelection.IsSelected, SceneSelection.Clear]

/-! ## Lemmas on traversals -/

theorem traverse_nil (h : SceneHierarchy) (opened : Nat → Bool) : traverse h [] opened = h := rfl

theorem traverse_cons (h : SceneHierarchy) (n : Nat) (ns : List Nat) (opened : Nat → Bool) :
    traverse h (n :: ns) opened = traverse (ProcessRangeSelection h n (opened n)) ns opened := rfl

theorem traverse_append (h : SceneHierarchy) (xs ys : List Nat) (opened : Nat → Bool) :
    traverse h (xs ++ ys) opened = traverse (traverse h xs opened) ys opened := by
  simp [traverse, List.foldl_append]

theorem withRange_self (h : SceneHierarchy) : withRange h h.rangeSelection_ = h := rfl

/-- Without a current request a traversal changes nothing. -/
theorem traverse_no_request (ns : List Nat) (opened : Nat → Bool) (h : SceneHierarchy)
    (hc : h.rangeSelection_.currentRequest_ = none) : traverse h ns opened = h := by
  induction ns with
  | nil => rfl
  | cons n ns ih =>
    rw [traverse_cons]
    have : ProcessRangeSelection h n (opened n) = h := by simp [ProcessRangeSelection, hc]
    rw [this, ih]

/-- Before the first border, objects that are no border change nothing. -/
theorem traverse_idle (req : RangeSelectionRequest) (ns : List Nat) (opened : Nat → Bool)
    (h : SceneHierarchy) (hc : h.rangeSelection_.currentRequest_ = some req)
    (ha : h.rangeSelection_.isActive_ = false) (hb : ∀ n ∈ ns, req.IsBorder n = false) :
    traverse h ns opened = h := by
  induction ns with
  | nil => rfl
  | cons n ns ih =>
    rw [traverse_cons]
    have hn : req.IsBorder n = false := hb n (List.mem_cons_self _ _)
    have : ProcessRangeSelection h n (opened n) = h := by
      simp [ProcessRangeSelection, hc, ha, hn]
    rw [this]
    exact ih (fun m hm => hb m (List.mem_cons_of_mem _ hm))

/-- While scanning, objects that are no border are appended to the result. -/
theorem traverse_scanning (req : RangeSelectionRequest) (ns : List Nat) (opened : Nat → Bool)
    (h : SceneHierarchy) (p : Option RangeSelectionRequest) (res : List Nat)
    (hb : ∀ n ∈ ns, req.IsBorder n = false) :
    traverse (withRange h ⟨p, some req, res, true⟩) ns opened
      = withRange h ⟨p, some req, res ++ ns, true⟩ := by
  induction ns generalizing res with
  | nil => simp [traverse]
  | cons n ns ih =>
    rw [traverse_cons]
    have hn : req.IsBorder n = false := hb n (List.mem_cons_self _ _)
    have hstep : ProcessRangeSelection (withRange h ⟨p, some req, res, true⟩) n (opened n)
        = withRange h ⟨p, some req, res ++ [n], true⟩ := by
      simp [ProcessRangeSelection, withRange, hn]
    rw [hstep, ih _ (fun m hm => hb m (List.mem_cons_of_mem _ hm))]
    simp

/-- The first border starts scanning. -/
theorem process_first_border (req : RangeSelectionRequest) (n : Nat) (o : Bool)
    (h : SceneHierarchy) (p : Option RangeSelectionRequest) (res : List Nat)
    (hb : req.IsBorder n = true) :
    ProcessRangeSelection (withRange h ⟨p, some req, res, false⟩) n o
      = withRange h ⟨p, some req, res ++ [n], true⟩ := by
  simp [ProcessRangeSelection, withRange, hb]

/-- The second border closes the range and clears the request. -/
theorem process_second_border (req : RangeSelectionRequest) (n : Nat) (o : Bool)
    (h : SceneHierarchy) (p : Option RangeSelectionRequest) (res : List Nat)
    (hb : req.IsBorder n = true) :
    ProcessRangeSelection (withRange h ⟨p, some req, res, true⟩) n o
      = withRange h ⟨p, none, res ++ [n], false⟩ := by
  simp [ProcessRangeSelection, withRange, hb]

/-- A traversal that meets both borders: the result is the first border, everything between
the borders, and the second border. -/
theorem traverse_two_borders (req : RangeSelectionRequest) (pre mid post : List Nat) (a b : Nat)
    (opened : Nat → Bool) (h : SceneHierarchy) (p : Option RangeSelectionRequest)
    (res : List Nat)
    (hpre : ∀ n ∈ pre, req.IsBorder n = false) (hmid : ∀ n ∈ mid, req.IsBorder n = false)
    (hba : req.IsBorder a = true) (hbb : req.IsBorder b = true) :
    traverse (withRange h ⟨p, some req, res, false⟩) (pre ++ a :: (mid ++ b :: post)) opened
      = withRange h ⟨p, none, res ++ a :: (mid ++ [b]), false⟩ := by
  rw [traverse_append, traverse_idle req pre opened _ rfl rfl hpre, traverse_cons,
    process_first_border req a _ h p res hba, traverse_append,
    traverse_scanning req mid opened h p _ hmid, traverse_cons,
    process_second_border req b _ h p _ hbb, traverse_no_request post opened _ rfl]
  simp

/-- A traversal that meets exactly one border is still scanning when it ends. -/
theorem traverse_one_border (req : RangeSelectionRequest) (pre post : List Nat) (a : Nat)
    (opened : Nat → Bool) (h : SceneHierarchy) (p : Option RangeSelectionRequest)
    (res : List Nat)
    (hpre : ∀ n ∈ pre, req.IsBorder n = false) (hpost : ∀ n ∈ post, req.IsBorder n = false)
    (hba : req.IsBorder a = true) :
    (traverse (withRange h ⟨p, some req, res, false⟩) (pre ++ a :: post)
      opened).rangeSelection_.isActive_ = true := by
  rw [traverse_append, traverse_idle req pre opened _ rfl rfl hpre, traverse_cons,
    process_first_border req a _ h p res hba, traverse_scanning req post opened h p _ hpost]
  rfl

/-- One call of `ProcessRangeSelection` never touches the pending request. -/
theorem process_pendingRequest (h : SceneHierarchy) (n : Nat) (o : Bool) :
    (ProcessRangeSelection h n o).rangeSelection_.pendingRequest_
      = h.rangeSelection_.pendingRequest_ := by
  unfold ProcessRangeSelection
  cases h.rangeSelection_.currentRequest_ with
  | none => rfl
  | some req =>
    simp only
    split_ifs <;> rfl

/-- A traversal never touches the pending request. -/
theorem traverse_pendingRequest (ns : List Nat) (opened : Nat → Bool) (h : SceneHierarchy) :
    (traverse h ns opened).rangeSelection_.pendingRequest_ = h.rangeSelection_.pendingRequest_ := by
  induction ns generalizing h with
  | nil => rfl
  | cons n ns ih => rw [traverse_cons, ih, process_pendingRequest]

/-- Splitting a list at a position. -/
theorem split_at_index (ns : List Nat) (i : Nat) (a : Nat) (hi : ns[i]? = some a) :
    ns = ns.take i ++ a :: ns.drop (i + 1) := by
  induction ns generalizing i with
  | nil => simp at hi
  | cons n ns ih =>
    cases i with
    | zero => simp at hi; simp [hi]
    | succ i =>
      simp at hi
      simpa using ih i hi

/-- Splitting a list at two positions `i < j`, together with the slice from `i` to `j`. -/
theorem split_at_two (ns : List Nat) (i j : Nat) (a b : Nat) (hij : i < j)
    (hi : ns[i]? = some a) (hj : ns[j]? = some b) :
    ∃ pre mid post, ns = pre ++ a :: (mid ++ b :: post)
      ∧ (ns.drop i).take (j - i + 1) = a :: (mid ++ [b]) := by
  induction ns generalizing i j with
  | nil => simp at hi
  | cons n ns ih =>
    cases j with
    | zero => omega
    | succ j =>
      cases i with
      | zero =>
        simp at hi hj
        subst hi
        refine ⟨[], ns.take j, ns.drop (j + 1), ?_, ?_⟩
        · simpa using split_at_index ns j b hj
        · have h1 := split_at_index ns j b hj
          have hlen : (ns.take j).length = j := by
            have := (List.getElem?_eq_some_iff.mp hj).1
            simp; omega
          simp only [List.drop_zero, Nat.sub_zero, List.take_succ_cons]
          congr 1
          conv_lhs => rw [h1]
          rw [List.take_append_eq_append_take]
          simp [hlen]
      | succ i =>
        simp at hi hj
        obtain ⟨pre, mid, post, h1, h2⟩ := ih i j (by omega) hi hj
        refine ⟨n :: pre, mid, post, ?_, ?_⟩
        · simp [← h1]
        · simpa [Nat.succ_sub_succ] using h2

/-- The log kept by the tracing wrapper while selecting a list of objects. -/
theorem traced_foldl_log {S : Type} (ops : SelectionOps S) (xs : List Nat)
    (p : SceneViewPage (S × List SelectionCall)) :
    (xs.foldl (fun q object =>
        { q with selection_ := (traceOps ops).SetSelected q.selection_ object true }) p).selection_.2
      = p.selection_.2 ++ xs.map (fun o => SelectionCall.setSelected o true) := by
  induction xs generalizing p with
  | nil => simp
  | cons x xs ih =>
    rw [List.foldl_cons, ih]
    simp [traceOps]

/-- Selecting a list of objects acts on the `selection_` component only. -/
theorem foldl_selection {S : Type} (ops : SelectionOps S) (xs : List Nat) (p : SceneViewPage S) :
    (xs.foldl (fun q object =>
        { q with selection_ := ops.SetSelected q.selection_ object true }) p).selection_
      = xs.foldl (fun s o => ops.SetSelected s o true) p.selection_ := by
  induction xs generalizing p with
  | nil => rfl
  | cons x xs ih => rw [List.foldl_cons, ih]; rfl

/-! ## Click handling -/

/-- C6: a valid shift-click (no ctrl, shift held, an active object `A` exists, it was visible in
the previous traversal and differs from the clicked object `O`) stores the request
(anchor `A`, target `O`) in `pendingRequest_` and leaves the page, hence the selection and the
selected status of every object, unchanged. -/
theorem shift_click_emits_request {S : Type} (ops : SelectionOps S) (h : SceneHierarchy)
    (page : SceneViewPage S) (A O : Nat)
    (hactive : ops.GetActiveObject page.selection_ = some A)
    (hvisible : h.wasActiveObjectVisible_ = true) (hne : A ≠ O) :
    (ProcessObjectSelected ops h page O false true).1.rangeSelection_.pendingRequest_
        = some { from_ := A, to_ := O }
      ∧ (ProcessObjectSelected ops h page O false true).2.selection_ = page.selection_
      ∧ ∀ x, ops.IsSelected (ProcessObjectSelected ops h page O false true).2.selection_ x
          = ops.IsSelected page.selection_ x := by
  have hr : ProcessObjectSelected ops h page O false true
      = ({ h with rangeSelection_ :=
            { h.rangeSelection_ with pendingRequest_ := some ⟨A, O⟩ } }, page) := by
    simp [ProcessObjectSelected, hactive, hvisible, hne]
  rw [hr]
  exact ⟨rfl, rfl, fun _ => rfl⟩

theorem shift_click_emits_request_witness :
    (ProcessObjectSelected specSelection visibleState clickPage 3 false true).1.rangeSelection_.pendingRequest_
        = some { from_ := 1, to_ := 3 }
      ∧ (ProcessObjectSelected specSelection visibleState clickPage 3 false true).2.selection_
        = clickPage.selection_
      ∧ ∀ x, specSelection.IsSelected
            (ProcessObjectSelected specSelection visibleState clickPage 3 false true).2.selection_ x
          = specSelection.IsSelected clickPage.selection_ x :=
  shift_click_emits_request specSelection visibleState clickPage 1 3 rfl rfl (by decide)

/-- C7: a click without ctrl that is a plain click (`range` false) or a shift-click that cannot
form a range (no active object, or the active object was not visible in the previous traversal,
or the active object is the clicked object `O`) leaves exactly `O` selected, leaves the panel
state (in particular `pendingRequest_`) unchanged, and has the same result as the plain click
on `O`. -/
theorem plain_click_single_selects {S : Type} (ops : SelectionOps S) (laws : SelectionLaws ops)
    (h : SceneHierarchy) (page : SceneViewPage S) (O : Nat) (range : Bool)
    (hcase : range = false ∨ ops.GetActiveObject page.selection_ = none
      ∨ h.wasActiveObjectVisible_ = false ∨ ops.GetActiveObject page.selection_ = some O) :
    (∀ x, ops.IsSelected (ProcessObjectSelected ops h page O false range).2.selection_ x
        = decide (x = O))
      ∧ (ProcessObjectSelected ops h page O false range).1 = h
      ∧ (ProcessObjectSelected ops h page O false range).1.rangeSelection_.pendingRequest_
          = h.rangeSelection_.pendingRequest_
      ∧ ProcessObjectSelected ops h page O false range
          = ProcessObjectSelected ops h page O false false := by
  have hr : ProcessObjectSelected ops h page O false range
      = (h, { page with selection_ := ops.SetSelected (ops.Clear page.selection_) O true }) := by
    unfold ProcessObjectSelected
    cases hact : ops.GetActiveObject page.selection_ with
    | none => simp [hact]
    | some a =>
      rcases hcase with hc | hc | hc | hc
      · simp [hc, hact]
      · simp [hact] at hc
      · simp [hc, hact]
      · have : a = O := by simpa [hact] using hc
        simp [this, hact]
  have hplain : ProcessObjectSelected ops h page O false false
      = (h, { page with selection_ := ops.SetSelected (ops.Clear page.selection_) O true }) := by
    unfold ProcessObjectSelected
    cases hact : ops.GetActiveObject page.selection_ <;> simp [hact]
  rw [hr, hplain]
  refine ⟨?_, rfl, rfl, rfl⟩
  intro x
  simp [laws.isSelected_setSelected, laws.isSelected_clear]

theorem plain_click_single_selects_witness :
    (∀ x, specSelection.IsSelected
        (ProcessObjectSelected specSelection initial clickPage 3 false true).2.selection_ x
        = decide (x = 3))
      ∧ (ProcessObjectSelected specSelection initial clickPage 3 false true).1 = initial
      ∧ (ProcessObjectSelected specSelection initial clickPage 3 false true).1.rangeSelection_.pendingRequest_
          = initial.rangeSelection_.pendingRequest_
      ∧ ProcessObjectSelected specSelection initial clickPage 3 false true
          = ProcessObjectSelected specSelection initial clickPage 3 false false :=
  plain_click_single_selects specSelection specSelection_laws initial clickPage 3 true
    (Or.inr (Or.inr (Or.inl rfl)))

/-- C8: a ctrl-click on `O`, with or without shift, flips the selected status of `O`, keeps the
selected status of every other object, and leaves the panel state unchanged (in particular
`pendingRequest_`, `currentRequest_`, `result_` and `isActive_`); a second ctrl-click on `O`
restores the selected status of every object. -/
theorem ctrl_click_toggles {S : Type} (ops : SelectionOps S) (laws : SelectionLaws ops)
    (h : SceneHierarchy) (page : SceneViewPage S) (O : Nat) (range range2 : Bool) :
    ops.IsSelected (ProcessObjectSelected ops h page O true range).2.selection_ O
        = !ops.IsSelected page.selection_ O
      ∧ (∀ x, x ≠ O → ops.IsSelected (ProcessObjectSelected ops h page O true range).2.selection_ x
          = ops.IsSelected page.selection_ x)
      ∧ (ProcessObjectSelected ops h page O true range).1 = h
      ∧ (ProcessObjectSelected ops h page O true range).1.rangeSelection_ = h.rangeSelection_
      ∧ (∀ x, ops.IsSelected
          (ProcessObjectSelected ops (ProcessObjectSelected ops h page O true range).1
            (ProcessObjectSelected ops h page O true range).2 O true range2).2.selection_ x
          = ops.IsSelected page.selection_ x) := by
  have hr : ∀ (h0 : SceneHierarchy) (p : SceneViewPage S) (r : Bool),
      ProcessObjectSelected ops h0 p O true r
        = (h0, { p with selection_ :=
            ops.SetSelected p.selection_ O (!ops.IsSelected p.selection_ O) }) := by
    intro h0 p r
    simp [ProcessObjectSelected]
  rw [hr h page range]
  refine ⟨?_, ?_, rfl, rfl, ?_⟩
  · simp [laws.isSelected_setSelected]
  · intro x hx
    simp [laws.isSelected_setSelected, hx]
  · intro x
    rw [hr]
    by_cases hx : x = O
    · simp [laws.isSelected_setSelected, hx]
    · simp [laws.isSelected_setSelected, hx]

theorem ctrl_click_toggles_witness :
    specSelection.IsSelected
        (ProcessObjectSelected specSelection visibleState clickPage 9 true true).2.selection_ 9
        = !specSelection.IsSelected clickPage.selection_ 9
      ∧ (∀ x, x ≠ 9 → specSelection.IsSelected
          (ProcessObjectSelected specSelection visibleState clickPage 9 true true).2.selection_ x
          = specSelection.IsSelected clickPage.selection_ x)
      ∧ (ProcessObjectSelected specSelection visibleState clickPage 9 true true).1 = visibleState
      ∧ (ProcessObjectSelected specSelection visibleState clickPage 9 true true).1.rangeSelection_
          = visibleState.rangeSelection_
      ∧ (∀ x, specSelection.IsSelected
          (ProcessObjectSelected specSelection
            (ProcessObjectSelected specSelection visibleState clickPage 9 true true).1
            (ProcessObjectSelected specSelection visibleState clickPage 9 true true).2
            9 true false).2.selection_ x
          = specSelection.IsSelected clickPage.selection_ x) :=
  ctrl_click_toggles specSelection specSelection_laws visibleState clickPage 9 true false

/-! ## Range selection -/

theorem beginRangeSelection_eq (h : SceneHierarchy) :
    BeginRangeSelection h
      = withRange { h with wasActiveObjectVisible_ := h.isActiveObjectVisible_
                           isActiveObjectVisible_ := false }
          ⟨none, h.rangeSelection_.pendingRequest_, [], false⟩ := rfl

/-- C1: for a traversal visiting pairwise-distinct objects `ns` and positions `i < j` holding
`a` and `b`, a pending request with endpoints `a` and `b` in either role makes the pass
`BeginRangeSelection`, `ProcessRangeSelection` on `ns` in order, `EndRangeSelection` accumulate
`result_ = ns[i..j]`, apply `SetSelected(x, true)` to exactly the objects of that slice in order,
and (with the tracing selection) record exactly those calls; the slice does not depend on which
endpoint is the anchor. -/
theorem range_selection_by_traversal_order {S : Type} (ops : SelectionOps S)
    (h : SceneHierarchy) (page : SceneViewPage S) (ns : List Nat) (opened : Nat → Bool)
    (i j a b : Nat) (req : RangeSelectionRequest)
    (hnd : ns.Nodup) (hij : i < j) (hi : ns[i]? = some a) (hj : ns[j]? = some b)
    (hreq : req = { from_ := a, to_ := b } ∨ req = { from_ := b, to_ := a })
    (hpending : h.rangeSelection_.pendingRequest_ = some req) :
    (traverse (BeginRangeSelection h) ns opened).rangeSelection_.result_
        = (ns.drop i).take (j - i + 1)
      ∧ (rangeSelectionPass ops h page ns opened).2.selection_
        = ((ns.drop i).take (j - i + 1)).foldl (fun s o => ops.SetSelected s o true)
            page.selection_
      ∧ (rangeSelectionPass (traceOps ops) h
            { scene_ := page.scene_, selection_ := (page.selection_, []) } ns opened).2.selection_.2
        = ((ns.drop i).take (j - i + 1)).map (fun o => SelectionCall.setSelected o true) := by
  obtain ⟨pre, mid, post, hns, hslice⟩ := split_at_two ns i j a b hij hi hj
  rw [hslice]
  have hborder : ∀ n, req.IsBorder n = true ↔ (n = a ∨ n = b) := by
    intro n
    rcases hreq with hr | hr <;> subst hr <;>
      simp [RangeSelectionRequest.IsBorder, or_comm]
  have hnot : ∀ n, n ≠ a → n ≠ b → req.IsBorder n = false := by
    intro n h1 h2
    cases hb : req.IsBorder n with
    | false => rfl
    | true => rcases (hborder n).mp hb with h3 | h3 <;> contradiction
  rw [hns] at hnd
  have hpre : ∀ n ∈ pre, req.IsBorder n = false := by
    intro n hn
    refine hnot n ?_ ?_ <;> rintro rfl <;>
      simp [List.nodup_append, List.nodup_cons] at hnd <;> simp_all
  have hmid : ∀ n ∈ mid, req.IsBorder n = false := by
    intro n hn
    refine hnot n ?_ ?_ <;> rintro rfl <;>
      simp [List.nodup_append, List.nodup_cons] at hnd <;> simp_all
  have htrav : traverse (BeginRangeSelection h) ns opened
      = withRange { h with wasActiveObjectVisible_ := h.isActiveObjectVisible_
                           isActiveObjectVisible_ := false }
          ⟨none, none, a :: (mid ++ [b]), false⟩ := by
    rw [beginRangeSelection_eq, hpending, hns,
      traverse_two_borders req pre mid post a b opened _ none [] hpre hmid
        ((hborder a).mpr (Or.inl rfl)) ((hborder b).mpr (Or.inr rfl))]
    simp
  refine ⟨?_, ?_, ?_⟩
  · rw [htrav]; rfl
  · unfold rangeSelectionPass
    rw [htrav]
    simp only [EndRangeSelection, withRange, Bool.not_false, if_true]
    exact foldl_selection ops _ page
  · unfold rangeSelectionPass
    rw [htrav]
    simp only [EndRangeSelection, withRange, Bool.not_false, if_true]
    rw [traced_foldl_log]
    simp

theorem range_selection_by_traversal_order_witness :
    ((traverse (BeginRangeSelection
          (withRange initial ⟨some { from_ := 3, to_ := 7 }, none, [], false⟩))
        [1, 2, 3, 4, 5, 6, 7, 8, 9, 10] (fun _ => true)).rangeSelection_.result_
        = [3, 4, 5, 6, 7])
      ∧ ((traverse (BeginRangeSelection
          (withRange initial ⟨some { from_ := 3, to_ := 1 }, none, [], false⟩))
        [1, 2, 3, 4, 5, 6, 7, 8, 9, 10] (fun _ => true)).rangeSelection_.result_
        = [1, 2, 3]) :=
  ⟨(range_selection_by_traversal_order specSelection
      (withRange initial ⟨some { from_ := 3, to_ := 7 }, none, [], false⟩) demoPage
      [1, 2, 3, 4, 5, 6, 7, 8, 9, 10] (fun _ => true) 2 6 3 7 { from_ := 3, to_ := 7 }
      (by decide) (by decide) rfl rfl (Or.inl rfl) rfl).1,
   (range_selection_by_traversal_order specSelection
      (withRange initial ⟨some { from_ := 3, to_ := 1 }, none, [], false⟩) demoPage
      [1, 2, 3, 4, 5, 6, 7, 8, 9, 10] (fun _ => true) 0 2 1 3 { from_ := 3, to_ := 1 }
      (by decide) (by decide) rfl rfl (Or.inr rfl) rfl).1⟩

/-- A traversal of pairwise-distinct objects that visits at most one endpoint of the current
request ends either still scanning or with an empty result. -/
theorem traverse_incomplete (ns : List Nat) (opened : Nat → Bool) (h : SceneHierarchy)
    (hnd : ns.Nodup)
    (hreq : ∀ req, h.rangeSelection_.pendingRequest_ = some req →
      ¬ (req.from_ ∈ ns ∧ req.to_ ∈ ns)) :
    (traverse (BeginRangeSelection h) ns opened).rangeSelection_.isActive_ = true
      ∨ (traverse (BeginRangeSelection h) ns opened).rangeSelection_.result_ = [] := by
  rw [beginRangeSelection_eq]
  cases hp : h.rangeSelection_.pendingRequest_ with
  | none =>
    right
    rw [traverse_no_request ns opened _ rfl]
    rfl
  | some req =>
    have hno := hreq req hp
    have hborder : ∀ n, req.IsBorder n = true ↔ (n = req.from_ ∨ n = req.to_) := by
      intro n
      simp [RangeSelectionRequest.IsBorder]
    have hfalse : ∀ n, n ≠ req.from_ → n ≠ req.to_ → req.IsBorder n = false := by
      intro n h1 h2
      cases hb : req.IsBorder n with
      | false => rfl
      | true => rcases (hborder n).mp hb with h3 | h3 <;> contradiction
    have hone : ∀ x y, req.IsBorder x = true → x ∈ ns → y ∉ ns →
        (∀ n, n ≠ x → n ≠ y → req.IsBorder n = false) →
        (traverse (withRange { h with wasActiveObjectVisible_ := h.isActiveObjectVisible_
                                      isActiveObjectVisible_ := false }
            ⟨none, some req, [], false⟩) ns opened).rangeSelection_.isActive_ = true := by
      intro x y hbx hx hy hoth
      obtain ⟨pre, post, hsplit⟩ := List.append_of_mem hx
      rw [hsplit] at hnd hy
      have hd := hnd
      simp only [List.nodup_append, List.nodup_cons, List.mem_append, List.mem_cons] at hd hy
      rw [hsplit]
      refine traverse_one_border req pre post x opened _ none [] ?_ ?_ hbx
      · intro n hn
        refine hoth n ?_ ?_
        · rintro rfl; exact hd.2.2 hn (List.mem_cons_self _ _)
        · rintro rfl; exact hy (Or.inl hn)
      · intro n hn
        refine hoth n ?_ ?_
        · rintro rfl; exact hd.2.1.1 hn
        · rintro rfl; exact hy (Or.inr (Or.inr hn))
    by_cases hf : req.from_ ∈ ns
    · have ht : req.to_ ∉ ns := fun ht => hno ⟨hf, ht⟩
      left
      exact hone req.from_ req.to_ ((hborder _).mpr (Or.inl rfl)) hf ht hfalse
    · by_cases ht : req.to_ ∈ ns
      · left
        exact hone req.to_ req.from_ ((hborder _).mpr (Or.inr rfl)) ht hf
          (fun n h1 h2 => hfalse n h2 h1)
      · right
        rw [traverse_idle req ns opened _ rfl rfl]
        · rfl
        · intro n hn
          refine hfalse n ?_ ?_
          · rintro rfl; exact hf hn
          · rintro rfl; exact ht hn

/-- C2: when the traversal visits pairwise-distinct objects and not both endpoints of the
pending request, the pass `BeginRangeSelection`, `ProcessRangeSelection` on every visited
object, `EndRangeSelection` returns the page unchanged for every implementation of the
selection, and the tracing selection records no call at all. -/
theorem no_partial_range_committed {S : Type} (ops : SelectionOps S) (h : SceneHierarchy)
    (page : SceneViewPage S) (ns : List Nat) (opened : Nat → Bool) (hnd : ns.Nodup)
    (hreq : ∀ req, h.rangeSelection_.pendingRequest_ = some req →
      ¬ (req.from_ ∈ ns ∧ req.to_ ∈ ns)) :
    (rangeSelectionPass ops h page ns opened).2 = page
      ∧ (rangeSelectionPass (traceOps ops) h
          { scene_ := page.scene_, selection_ := (page.selection_, []) } ns opened).2.selection_.2
        = [] := by
  have key : ∀ {T : Type} (o : SelectionOps T) (p : SceneViewPage T),
      (rangeSelectionPass o h p ns opened).2 = p := by
    intro T o p
    unfold rangeSelectionPass EndRangeSelection
    rcases traverse_incomplete ns opened h hnd hreq with hact | hres
    · simp [hact]
    · by_cases hact : (traverse (BeginRangeSelection h) ns opened).rangeSelection_.isActive_ = true
      · simp [hact]
      · simp [hact, hres]
  exact ⟨key ops page, by rw [key]⟩

theorem no_partial_range_committed_witness :
    (rangeSelectionPass specSelection
        (withRange initial ⟨some { from_ := 3, to_ := 7 }, none, [], false⟩) clickPage
        [1, 2, 4, 5, 6, 7, 8] (fun _ => true)).2 = clickPage
      ∧ (rangeSelectionPass (traceOps specSelection)
          (withRange initial ⟨some { from_ := 3, to_ := 7 }, none, [], false⟩)
          { scene_ := clickPage.scene_, selection_ := (clickPage.selection_, []) }
          [1, 2, 4, 5, 6, 7, 8] (fun _ => true)).2.selection_.2 = [] :=
  no_partial_range_committed specSelection
    (withRange initial ⟨some { from_ := 3, to_ := 7 }, none, [], false⟩) clickPage
    [1, 2, 4, 5, 6, 7, 8] (fun _ => true) (by decide)
    (by
      intro req hreq
      have : req = { from_ := 3, to_ := 7 } := by
        simpa [withRange, eq_comm] using hreq
      subst this
      decide)

/-- C3 fails as stated: with `{1, 2, 3}` selected and `1` active, shift-clicking `2` and
traversing `1, 2, 3` accumulates the result `[1, 2]`, and object `3`, selected before the
shift-click and outside the range, is still selected after `EndRangeSelection`. -/
theorem range_selection_keeps_prior_selection :
    (ProcessObjectSelected specSelection visibleState rangePage 2 false true).1.rangeSelection_.pendingRequest_
        = some { from_ := 1, to_ := 2 }
      ∧ (traverse (BeginRangeSelection
        (ProcessObjectSelected specSelection visibleState rangePage 2 false true).1)
        [1, 2, 3] (fun _ => true)).rangeSelection_.result_ = [1, 2]
      ∧ specSelection.IsSelected rangePage.selection_ 3 = true
      ∧ specSelection.IsSelected
          (rangeSelectionPass specSelection
            (ProcessObjectSelected specSelection visibleState rangePage 2 false true).1
            (ProcessObjectSelected specSelection visibleState rangePage 2 false true).2
            [1, 2, 3] (fun _ => true)).2.selection_ 3 = true
      ∧ ¬ (∀ x, specSelection.IsSelected
            (rangeSelectionPass specSelection
              (ProcessObjectSelected specSelection visibleState rangePage 2 false true).1
              (ProcessObjectSelected specSelection visibleState rangePage 2 false true).2
              [1, 2, 3] (fun _ => true)).2.selection_ x = true
          ↔ x ∈ (traverse (BeginRangeSelection
              (ProcessObjectSelected specSelection visibleState rangePage 2 false true).1)
              [1, 2, 3] (fun _ => true)).rangeSelection_.result_) := by
  refine ⟨by decide, by decide, by decide, by decide, ?_⟩
  intro hall
  exact absurd ((hall 3).mp (by decide)) (by decide)

/-- Selecting a list of objects, under the membership laws: an object is selected afterwards
iff it is in the list or was selected before. -/
theorem isSelected_foldl {S : Type} (ops : SelectionOps S) (laws : SelectionLaws ops)
    (xs : List Nat) (s : S) (x : Nat) :
    ops.IsSelected (xs.foldl (fun t o => ops.SetSelected t o true) s) x
      = (decide (x ∈ xs) || ops.IsSelected s x) := by
  induction xs generalizing s with
  | nil => simp
  | cons y ys ih =>
    rw [List.foldl_cons, ih, laws.isSelected_setSelected]
    by_cases hxy : x = y
    · simp [hxy]
    · simp [hxy]

/-- The first element of a list that satisfies a predicate, with the elements before it. -/
theorem split_at_first (p : Nat → Bool) (l : List Nat) (x : Nat) (hx : x ∈ l) (hp : p x = true) :
    ∃ pre y post, l = pre ++ y :: post ∧ p y = true ∧ ∀ n ∈ pre, p n = false := by
  induction l with
  | nil => simp at hx
  | cons z zs ih =>
    cases hz : p z with
    | true => exact ⟨[], z, zs, rfl, hz, by simp⟩
    | false =>
      have hx2 : x ∈ zs := by
        rcases List.mem_cons.mp hx with h1 | h1
        · subst h1; rw [hp] at hz; cases hz
        · exact h1
      obtain ⟨pre, y, post, h1, h2, h3⟩ := ih hx2
      refine ⟨z :: pre, y, post, by simp [h1], h2, ?_⟩
      intro n hn
      rcases List.mem_cons.mp hn with h4 | h4
      · subst h4; exact hz
      · exact h3 n h4

/-- A traversal that visits both endpoints of a request with distinct endpoints ends with
scanning closed. -/
theorem traverse_closes (ns : List Nat) (opened : Nat → Bool) (h : SceneHierarchy)
    (req : RangeSelectionRequest) (hpending : h.rangeSelection_.pendingRequest_ = some req)
    (hne : req.from_ ≠ req.to_) (hfrom : req.from_ ∈ ns) (hto : req.to_ ∈ ns) :
    (traverse (BeginRangeSelection h) ns opened).rangeSelection_.isActive_ = false := by
  have hbf : req.IsBorder req.from_ = true := by simp [RangeSelectionRequest.IsBorder]
  have hbt : req.IsBorder req.to_ = true := by simp [RangeSelectionRequest.IsBorder]
  obtain ⟨pre, x, rest, hsplit, hbx, hpre⟩ := split_at_first req.IsBorder ns req.from_ hfrom hbf
  have hother : ∃ y, y ∈ rest ∧ req.IsBorder y = true := by
    have hmem : ∀ y, y ∈ ns → req.IsBorder y = true → y ≠ x → y ∈ rest := by
      intro y hy hby hyx
      rw [hsplit] at hy
      rcases List.mem_append.mp hy with h1 | h1
      · rw [hpre y h1] at hby; cases hby
      · rcases List.mem_cons.mp h1 with h2 | h2
        · exact absurd h2 hyx
        · exact h2
    by_cases hxf : x = req.from_
    · exact ⟨req.to_, hmem _ hto hbt (by rw [hxf]; exact fun e => hne e.symm), hbt⟩
    · exact ⟨req.from_, hmem _ hfrom hbf (fun e => hxf e.symm), hbf⟩
  obtain ⟨y, hy, hby⟩ := hother
  obtain ⟨mid, z, post, hsplit2, hbz, hmid⟩ := split_at_first req.IsBorder rest y hy hby
  rw [beginRangeSelection_eq, hpending, hsplit, hsplit2,
    traverse_two_borders req pre mid post x z opened _ none [] hpre hmid hbx hbz]
  rfl

/-- C3 (amended): when the traversal visits both endpoints of the pending request (a request
has distinct endpoints), the objects selected after `EndRangeSelection` are exactly the objects
of the accumulated result list together with the objects that were selected before the pass:
the range is added to the prior selection. -/
theorem range_selection_adds_to_selection {S : Type} (ops : SelectionOps S)
    (laws : SelectionLaws ops) (h : SceneHierarchy) (page : SceneViewPage S) (ns : List Nat)
    (opened : Nat → Bool) (req : RangeSelectionRequest)
    (hpending : h.rangeSelection_.pendingRequest_ = some req)
    (hne : req.from_ ≠ req.to_) (hfrom : req.from_ ∈ ns) (hto : req.to_ ∈ ns) (x : Nat) :
    ops.IsSelected (rangeSelectionPass ops h page ns opened).2.selection_ x
      = (decide (x ∈ (traverse (BeginRangeSelection h) ns opened).rangeSelection_.result_)
          || ops.IsSelected page.selection_ x) := by
  have hdone := traverse_closes ns opened h req hpending hne hfrom hto
  simp only [rangeSelectionPass, EndRangeSelection, hdone, Bool.not_false, if_true]
  rw [foldl_selection, isSelected_foldl ops laws]

theorem range_selection_adds_to_selection_witness :
    specSelection.IsSelected
        (rangeSelectionPass specSelection
          (ProcessObjectSelected specSelection visibleState clickPage 3 false true).1
          clickPage [1, 2, 3, 9] (fun _ => true)).2.selection_ 2
      = (decide (2 ∈ (traverse (BeginRangeSelection
            (ProcessObjectSelected specSelection visibleState clickPage 3 false true).1)
            [1, 2, 3, 9] (fun _ => true)).rangeSelection_.result_)
          || specSelection.IsSelected clickPage.selection_ 2) :=
  range_selection_adds_to_selection specSelection specSelection_laws
    (ProcessObjectSelected specSelection visibleState clickPage 3 false true).1
    clickPage [1, 2, 3, 9] (fun _ => true) { from_ := 1, to_ := 3 }
    (by decide) (by decide) (by decide) (by decide) 2

/-- C9: a click never changes `currentRequest_`, `result_` or `isActive_`, and it either keeps
`pendingRequest_` or overwrites it with the request (active object, clicked object);
`BeginRangeSelection` moves the pending request into `currentRequest_` (discarding the old
current request), empties `pendingRequest_` and `result_` and resets `isActive_`;
`EndRangeSelection` always leaves `currentRequest_` empty; a traversal never touches
`pendingRequest_`, so after one pass the next `BeginRangeSelection` finds no request unless a
click emitted a new one. -/
theorem requests_queue_one_frame_deep {S : Type} (ops : SelectionOps S) (h : SceneHierarchy)
    (page : SceneViewPage S) (O : Nat) (toggle range : Bool) (ns : List Nat)
    (opened : Nat → Bool) :
    ((ProcessObjectSelected ops h page O toggle range).1.rangeSelection_.currentRequest_
        = h.rangeSelection_.currentRequest_
      ∧ (ProcessObjectSelected ops h page O toggle range).1.rangeSelection_.result_
        = h.rangeSelection_.result_
      ∧ (ProcessObjectSelected ops h page O toggle range).1.rangeSelection_.isActive_
        = h.rangeSelection_.isActive_)
      ∧ ((ProcessObjectSelected ops h page O toggle range).1.rangeSelection_.pendingRequest_
          = h.rangeSelection_.pendingRequest_
        ∨ ∃ A, ops.GetActiveObject page.selection_ = some A
          ∧ (ProcessObjectSelected ops h page O toggle range).1.rangeSelection_.pendingRequest_
            = some { from_ := A, to_ := O })
      ∧ (BeginRangeSelection h).rangeSelection_
        = { pendingRequest_ := none
            currentRequest_ := h.rangeSelection_.pendingRequest_
            result_ := []
            isActive_ := false }
      ∧ (EndRangeSelection ops h page).1.rangeSelection_.currentRequest_ = none
      ∧ (traverse h ns opened).rangeSelection_.pendingRequest_
        = h.rangeSelection_.pendingRequest_
      ∧ (BeginRangeSelection
          (rangeSelectionPass ops h page ns opened).1).rangeSelection_.currentRequest_ = none := by
  have hclick : ProcessObjectSelected ops h page O toggle range = (h, (ProcessObjectSelected ops h page O toggle range).2)
      ∨ ∃ A, ops.GetActiveObject page.selection_ = some A
        ∧ ProcessObjectSelected ops h page O toggle range
          = (withRange h { h.rangeSelection_ with pendingRequest_ := some ⟨A, O⟩ }, page) := by
    unfold ProcessObjectSelected
    cases toggle with
    | true => left; simp
    | false =>
      cases hact : ops.GetActiveObject page.selection_ with
      | none => left; simp [hact]
      | some A =>
        by_cases hc : (range && h.wasActiveObjectVisible_ && A != O) = true
        · right
          exact ⟨A, rfl, by simp only [hact]; rw [if_pos hc]; rfl⟩
        · left
          simp only [hact]
          rw [if_neg hc]
          simp
  refine ⟨?_, ?_, rfl, ?_, traverse_pendingRequest ns opened h, ?_⟩
  · rcases hclick with hc | ⟨A, _, hc⟩
    · rw [hc]; exact ⟨rfl, rfl, rfl⟩
    · rw [hc]; exact ⟨rfl, rfl, rfl⟩
  · rcases hclick with hc | ⟨A, hA, hc⟩
    · left; rw [hc]
    · right; exact ⟨A, hA, by rw [hc]; rfl⟩
  · unfold EndRangeSelection
    simp only
    split_ifs <;> rfl
  · have hend : ∀ (g : SceneHierarchy),
        (EndRangeSelection ops g page).1.rangeSelection_.pendingRequest_
          = g.rangeSelection_.pendingRequest_ := by
      intro g
      unfold EndRangeSelection
      simp only
      split_ifs <;> rfl
    show (rangeSelectionPass ops h page ns opened).1.rangeSelection_.pendingRequest_ = none
    unfold rangeSelectionPass
    rw [hend, traverse_pendingRequest]
    rfl

/-! ## Search cache -/

/-- A name that contains a query also contains every substring of the query (both tests
case-insensitive). -/
theorem contains_of_substring (name q q2 : List Char) (hsub : q <:+: q2)
    (h2 : contains name q2 false = true) : contains name q false = true := by
  simp only [contains, Bool.false_eq_true, if_false, decide_eq_true_eq] at h2 ⊢
  exact (hsub.map Char.toLower).trans h2

/-- Dereferencing the identity of a live node yields that node. -/
theorem lookup_of_mem (w : World) (nd : Node) (hmem : nd ∈ w.nodes) :
    w.lookup nd.id = some nd := by
  unfold World.lookup
  have hnd := w.nodup
  revert hnd hmem
  generalize w.nodes = l
  intro hmem hnd
  induction l with
  | nil => simp at hmem
  | cons x xs ih =>
    simp only [List.map_cons, List.nodup_cons] at hnd
    by_cases hx : x = nd
    · simp [hx]
    · have hin : nd ∈ xs := by
        rcases List.mem_cons.mp hmem with h1 | h1
        · exact absurd h1.symm hx
        · exact h1
      have hid : x.id ≠ nd.id := by
        intro e
        exact hnd.1 (e ▸ List.mem_map_of_mem Node.id hin)
      simp [List.find?_cons, hid, ih hin hnd.2]

/-- The update for an empty query. -/
theorem update_empty_query {S : Type} (w : World) (h : SceneHierarchy) (page : SceneViewPage S)
    (hq : h.search_.currentQuery_ = []) :
    (UpdateSearchResults w h page).search_
      = { lastScene_ := some page.scene_, currentQuery_ := [], lastQuery_ := []
          lastResults_ := [] } := by
  simp [UpdateSearchResults, hq]

/-- The update for a non-empty query when the cached results are expired: a full rescan. -/
theorem update_rescan {S : Type} (w : World) (h : SceneHierarchy) (page : SceneViewPage S)
    (hq : h.search_.currentQuery_ ≠ [])
    (hexp : resultsExpired { h.search_ with lastScene_ := some page.scene_ }
      (h.search_.lastScene_ != some page.scene_) = true) :
    (UpdateSearchResults w h page).search_
      = { lastScene_ := some page.scene_, currentQuery_ := h.search_.currentQuery_
          lastQuery_ := h.search_.currentQuery_
          lastResults_ := fullRescan w page.scene_ h.search_.currentQuery_ } := by
  simp [UpdateSearchResults, hq, hexp, fullRescan]

/-- The update for a non-empty query when the cached results are kept: pruning in place. -/
theorem update_prune {S : Type} (w : World) (h : SceneHierarchy) (page : SceneViewPage S)
    (hq : h.search_.currentQuery_ ≠ [])
    (hexp : resultsExpired { h.search_ with lastScene_ := some page.scene_ }
      (h.search_.lastScene_ != some page.scene_) = false) :
    (UpdateSearchResults w h page).search_
      = { lastScene_ := some page.scene_, currentQuery_ := h.search_.currentQuery_
          lastQuery_ := h.search_.currentQuery_
          lastResults_ := h.search_.lastResults_.filter (fun node =>
              !(match w.lookup node with
                | none => true
                | some nd => !contains nd.name h.search_.currentQuery_ false)) } := by
  simp [UpdateSearchResults, hq, hexp]

/-- C10: after `UpdateSearchResults`, `lastQuery_` equals `currentQuery_` (which the update does
not change) and `lastScene_` is the scene of the page; for an empty query `lastResults_` and
`lastQuery_` are empty, so that `RenderContent` takes its full-tree branch; for a non-empty
query every entry of `lastResults_` is a live node whose name contains the query
case-insensitively, in the rescan branch and in the pruning branch alike. -/
theorem search_state_consistent {S : Type} (w : World) (h : SceneHierarchy)
    (page : SceneViewPage S) :
    (UpdateSearchResults w h page).search_.lastQuery_
        = (UpdateSearchResults w h page).search_.currentQuery_
      ∧ (UpdateSearchResults w h page).search_.currentQuery_ = h.search_.currentQuery_
      ∧ (UpdateSearchResults w h page).search_.lastScene_ = some page.scene_
      ∧ (h.search_.currentQuery_ = [] →
          (UpdateSearchResults w h page).search_.lastResults_ = []
            ∧ (UpdateSearchResults w h page).search_.lastQuery_.isEmpty = true)
      ∧ (h.search_.currentQuery_ ≠ [] →
          ∀ n ∈ (UpdateSearchResults w h page).search_.lastResults_,
            ∃ nd, w.lookup n = some nd
              ∧ contains nd.name h.search_.currentQuery_ false = true) := by
  by_cases hq : h.search_.currentQuery_ = []
  · rw [update_empty_query w h page hq]
    simp [hq]
  · cases hexp : resultsExpired { h.search_ with lastScene_ := some page.scene_ }
        (h.search_.lastScene_ != some page.scene_) with
    | true =>
      rw [update_rescan w h page hq hexp]
      refine ⟨rfl, rfl, rfl, fun e => absurd e hq, fun _ n hn => ?_⟩
      simp only [fullRescan, List.mem_map, List.mem_filter, World.GetChildren] at hn
      obtain ⟨nd, ⟨⟨hmem, _⟩, hc⟩, rfl⟩ := hn
      exact ⟨nd, lookup_of_mem w nd hmem, hc⟩
    | false =>
      rw [update_prune w h page hq hexp]
      refine ⟨rfl, rfl, rfl, fun e => absurd e hq, fun _ n hn => ?_⟩
      simp only [List.mem_filter] at hn
      cases hl : w.lookup n with
      | none => simp [hl] at hn
      | some nd => exact ⟨nd, rfl, by simpa [hl] using hn.2⟩

/-- C4, the code at the failing input: in a scene with nodes "abcd" and "abcx", the query "abcd"
followed by the shortened query "abc" takes the pruning branch (`resultsExpired` is false) and
leaves `lastResults_ = [1]`, although the full rescan for "abc" is `[1, 2]` and node 2, which
matches "abc", is not in the cached results. -/
theorem shortened_query_is_pruned :
    resultsExpired
        { (typeQuery demoWorld demoPage initial ['a', 'b', 'c', 'd']).search_ with
          currentQuery_ := ['a', 'b', 'c'] } false = false
      ∧ (typeQuery demoWorld demoPage initial ['a', 'b', 'c', 'd']).search_.lastResults_ = [1]
      ∧ (typeQuery demoWorld demoPage
          (typeQuery demoWorld demoPage initial ['a', 'b', 'c', 'd'])
          ['a', 'b', 'c']).search_.lastResults_ = [1]
      ∧ fullRescan demoWorld demoPage.scene_ ['a', 'b', 'c'] = [1, 2] := by
  decide

/-- C5 fails as stated: after an update with the empty query the last query is empty and the
result list is empty; the query "abc" extends the empty query, and the update for it yields
node 1, which is no member of the previous result list. -/
theorem extending_empty_query_adds_results :
    (typeQuery demoWorld demoPage initial []).search_.lastQuery_ = []
      ∧ (typeQuery demoWorld demoPage initial []).search_.lastQuery_ <:+: ['a', 'b', 'c']
      ∧ 1 ∈ (typeQuery demoWorld demoPage (typeQuery demoWorld demoPage initial [])
          ['a', 'b', 'c']).search_.lastResults_
      ∧ 1 ∉ (typeQuery demoWorld demoPage initial []).search_.lastResults_ := by
  decide

/-- C5 (amended): in a search state whose result list contains every descendant of the scene
whose name contains the last query `q` case-insensitively, the update for a query `q2` that has
`q` as a substring yields only members of the previous result list. -/
theorem narrowing_adds_no_result {S : Type} (w : World) (h : SceneHierarchy)
    (page : SceneViewPage S) (q2 : List Char)
    (hsub : h.search_.lastQuery_ <:+: q2)
    (hcomplete : ∀ n ∈ fullRescan w page.scene_ h.search_.lastQuery_,
      n ∈ h.search_.lastResults_) :
    ∀ n ∈ (typeQuery w page h q2).search_.lastResults_, n ∈ h.search_.lastResults_ := by
  intro n hn
  unfold typeQuery at hn
  by_cases hq : q2 = []
  · rw [update_empty_query w _ page hq] at hn
    simp at hn
  · cases hexp : resultsExpired
        { ({ h with search_ := { h.search_ with currentQuery_ := q2 } } : SceneHierarchy).search_
          with lastScene_ := some page.scene_ }
        (h.search_.lastScene_ != some page.scene_) with
    | true =>
      rw [update_rescan w _ page hq hexp] at hn
      apply hcomplete
      simp only [fullRescan, List.mem_map, List.mem_filter] at hn ⊢
      obtain ⟨nd, ⟨hmem, hc⟩, rfl⟩ := hn
      exact ⟨nd, ⟨hmem, contains_of_substring nd.name _ q2 hsub hc⟩, rfl⟩
    | false =>
      rw [update_prune w _ page hq hexp] at hn
      exact (List.mem_filter.mp hn).1

theorem narrowing_adds_no_result_witness :
    (typeQuery demoWorld demoPage initial ['a', 'b', 'c']).search_.lastQuery_
        <:+: ['a', 'b', 'c', 'd']
      ∧ ∀ n ∈ (typeQuery demoWorld demoPage (typeQuery demoWorld demoPage initial ['a', 'b', 'c'])
          ['a', 'b', 'c', 'd']).search_.lastResults_,
        n ∈ (typeQuery demoWorld demoPage initial ['a', 'b', 'c']).search_.lastResults_ :=
  ⟨by decide,
   narrowing_adds_no_result demoWorld (typeQuery demoWorld demoPage initial ['a', 'b', 'c'])
    demoPage ['a', 'b', 'c', 'd'] (by decide) (by decide)⟩

end SceneHierarchyModel
